import Mathlib

/-!
Verification of the mini-blockchain node against its specification.

This file gives a shallow embedding, in Lean 4, of the parts of the Rust
sources that the checked properties speak about:

* `src/primitives.rs` — transactions, blocks, sealed blocks, accounts,
  receipts, change sets and the state overlay;
* `src/executor/mod.rs` — block building, transaction execution and the
  commit loop;
* `src/executor/mempool.rs` — the drain loop and the `(from, nonce)` sort;
* `src/server/message.rs` and `src/server/connection.rs` — CRLF framing;
* `src/server/handler.rs` — the per-connection dispatch table;
* `src/database.rs` — the in-memory database and its writer methods.

Modelling conventions:

* Fixed-width byte strings (`Address`, `B256`) are byte lists; machine
  integers are `Nat` with an explicit `% 2 ^ w` exactly where the Rust
  code can wrap (release-profile semantics of `u128` addition and the
  `u64` nonce increment).
* SHA3-256 and the secp256k1 operations (`recover_from_prehash`,
  SEC1 point encoding) are pure black boxes, so they are passed as
  function parameters; every theorem about them holds for all choices
  of these functions.  The scalar-range and recovery-id checks of
  `k256` are embedded concretely.
* Fallible Rust functions returning `Result` are embedded with
  `Except String`; `Option` models both Rust `Option` and panics of
  `unimplemented` arms (which never return a response).
-/

namespace MBC

/-- Byte strings: an address is the list of its 20 bytes. -/
abbrev Address := List Nat

/-- Byte strings: a `B256` hash word is the list of its 32 bytes. -/
abbrev B256 := List Nat

/-- Little-endian serialization of `x` into `w` bytes (Rust `to_le_bytes`). -/
def toLeBytes (w x : Nat) : List Nat :=
  match w with
  | 0 => []
  | Nat.succ w1 => (x % 256) :: toLeBytes w1 (x / 256)

/-- Value of a byte list read little-endian (`U256::from_le_slice`). -/
def leVal : List Nat → Nat
  | [] => 0
  | b :: rest => b + 256 * leVal rest

/-- A well-formed 32-byte word: 32 entries, each an actual byte. -/
def ValidB256 (l : List Nat) : Prop := l.length = 32 ∧ ∀ b ∈ l, b < 256

/-- An abstract hash function producing well-formed 32-byte words,
as `utils::sha3` does. -/
def ValidSha3 (sha3 : List Nat → B256) : Prop := ∀ l, ValidB256 (sha3 l)

/-- `U256::MAX`. -/
def U256MAX : Nat := 2 ^ 256 - 1

/-- Modulus of `u128` arithmetic. -/
def U128MOD : Nat := 2 ^ 128

/-- Modulus of `u64` arithmetic. -/
def U64MOD : Nat := 2 ^ 64

/-- `Transaction` (src/primitives.rs): stored hash, payload and
recoverable signature.  The Rust field `from` is a Lean keyword and is
rendered `from_`, and `to` (a reserved token) `to_`. -/
structure Transaction where
  hash : B256
  from_ : Address
  to_ : Address
  nonce : Nat
  value : Nat
  v : Nat
  r : Nat
  s : Nat
  deriving DecidableEq

/-- The signed preimage `from ‖ to ‖ nonce_le ‖ value_le` that
`Transaction::hash` feeds to SHA3-256 (`nonce` is a `u64`, `value` a
`u128`; signature fields are excluded). -/
def Transaction.preimage (t : Transaction) : List Nat :=
  t.from_ ++ t.to_ ++ toLeBytes 8 t.nonce ++ toLeBytes 16 t.value

/-- `Transaction::hash()` — recompute the SHA3-256 of the preimage. -/
def Transaction.computeHash (sha3 : List Nat → B256) (t : Transaction) : B256 :=
  sha3 t.preimage

/-- The secp256k1 group order: scalars of well-formed signatures lie in
`[1, n-1]`. -/
def secpOrder : Nat :=
  0xfffffffffffffffffffffffffffffffebaaedce6af48a03bbfd25e8cd0364141

/-- `RecoveryId::from_byte` (k256): defined exactly on bytes `0..=3`. -/
def recoveryIdFromByte (v : Nat) : Option Nat :=
  if v ≤ 3 then some v else none

/-- `Signature::from_scalars` (k256): succeeds iff `r` and `s` are
nonzero canonical scalars modulo the group order. -/
def signatureFromScalars (r s : Nat) : Option (Nat × Nat) :=
  if 0 < r ∧ r < secpOrder ∧ 0 < s ∧ s < secpOrder then some (r, s) else none

/-- `Address::from_word`: the rightmost 20 bytes of a 32-byte word. -/
def addressFromWord (w : B256) : Address := w.drop 12

/-- `Transaction::verify` (src/primitives.rs lines 52–96).  `recover`
abstracts `VerifyingKey::recover_from_prehash` over an abstract key type
`K`; `encode` abstracts the SEC1 uncompressed encoding
`to_encoded_point(false).as_bytes()`.  The final comparison mirrors
`addr != self.from`. -/
def Transaction.verify {K : Type} (sha3 : List Nat → B256)
    (recover : B256 → Nat × Nat → Nat → Option K)
    (encode : K → List Nat) (t : Transaction) : Bool :=
  let h := t.computeHash sha3
  if h ≠ t.hash then false
  else
    match recoveryIdFromByte t.v with
    | none => false
    | some rid =>
      match signatureFromScalars t.r t.s with
      | none => false
      | some sig =>
        match recover h sig rid with
        | none => false
        | some key =>
          let pk := encode key
          if pk.headD 0 ≠ 4 then false
          else decide (addressFromWord (sha3 (pk.drop 1)) = t.from_)

/-- The address derived from a recovered key: SHA3 of the uncompressed
point minus its leading `0x04` tag, taken as an address word. -/
def derivedAddress {K : Type} (sha3 : List Nat → B256)
    (encode : K → List Nat) (k : K) : Address :=
  addressFromWord (sha3 ((encode k).drop 1))

/-- SEC1 invariant of `to_encoded_point(false)`: the encoding of any key
is 65 bytes and begins with the `0x04` tag. -/
def Sec1Uncompressed {K : Type} (encode : K → List Nat) : Prop :=
  ∀ k, ∃ coords, encode k = 4 :: coords ∧ coords.length = 64

/-- `BlockHeader` (src/primitives.rs lines 99–115). -/
structure BlockHeader where
  parent_hash : B256
  nonce : Nat
  number : Nat
  timestamp : Nat
  difficulty : Nat
  coinbase : Address
  tx_root : B256
  deriving DecidableEq

/-- `Block` (src/primitives.rs lines 117–123). -/
structure Block where
  header : BlockHeader
  transactions : List Transaction
  deriving DecidableEq

/-- The header preimage hashed by both `Block::hash` and
`SealedBlock::hash`:
`parent_hash ‖ nonce_le ‖ number_le ‖ timestamp_le ‖ difficulty_le ‖ coinbase ‖ tx_root`
(`nonce`, `number`, `timestamp` are `u64`; `difficulty.as_le_slice()` is
32 little-endian bytes). -/
def headerPreimage (parent_hash : B256) (nonce number timestamp difficulty : Nat)
    (coinbase : Address) (tx_root : B256) : List Nat :=
  parent_hash ++ toLeBytes 8 nonce ++ toLeBytes 8 number ++ toLeBytes 8 timestamp ++
    toLeBytes 32 difficulty ++ coinbase ++ tx_root

/-- `Block::hash` (src/primitives.rs lines 133–146). -/
def Block.hash (sha3 : List Nat → B256) (b : Block) : B256 :=
  sha3 (headerPreimage b.header.parent_hash b.header.nonce b.header.number
    b.header.timestamp b.header.difficulty b.header.coinbase b.header.tx_root)

/-- `SealedHeader` (src/primitives.rs lines 184–209). -/
structure SealedHeader where
  parent_hash : B256
  number : Nat
  block_hash : B256
  nonce : Nat
  difficulty : Nat
  timestamp : Nat
  coinbase : Address
  tx_root : B256
  deriving DecidableEq

/-- `SealedBlock` (src/primitives.rs lines 211–220). -/
structure SealedBlock where
  header : SealedHeader
  transactions : List Transaction
  deriving DecidableEq

/-- `Block::seal_slow`: seal with the recomputed block hash. -/
def Block.seal_slow (sha3 : List Nat → B256) (b : Block) : SealedBlock :=
  { header :=
      { parent_hash := b.header.parent_hash
        block_hash := b.hash sha3
        number := b.header.number
        nonce := b.header.nonce
        timestamp := b.header.timestamp
        difficulty := b.header.difficulty
        coinbase := b.header.coinbase
        tx_root := b.header.tx_root }
    transactions := b.transactions }

/-- `SealedBlock::hash`: recompute the SHA3-256 over the header fields. -/
def SealedBlock.hash (sha3 : List Nat → B256) (sb : SealedBlock) : B256 :=
  sha3 (headerPreimage sb.header.parent_hash sb.header.nonce sb.header.number
    sb.header.timestamp sb.header.difficulty sb.header.coinbase sb.header.tx_root)

/-- `SealedBlock::verify` (src/primitives.rs lines 243–254): every
transaction passes `verify()` and re-hashes to its stored hash, the
recomputed block hash equals the stored one, and that hash read as a
little-endian `U256` is at most the difficulty. -/
def SealedBlock.verify {K : Type} (sha3 : List Nat → B256)
    (recover : B256 → Nat × Nat → Nat → Option K)
    (encode : K → List Nat) (sb : SealedBlock) : Bool :=
  sb.transactions.all
      (fun tx => tx.verify sha3 recover encode &&
        decide (tx.computeHash sha3 = tx.hash)) &&
    (decide (sb.hash sha3 = sb.header.block_hash) &&
      decide (leVal (sb.hash sha3) ≤ sb.header.difficulty))

/-- `Transactions::get_root`: SHA3-256 of the concatenation of the stored
transaction hashes, in order. -/
def Transactions.get_root (sha3 : List Nat → B256) (txs : List Transaction) : B256 :=
  sha3 (txs.map Transaction.hash).flatten

/-- `Executor::build_block` (src/executor/mod.rs lines 117–140), minus
the channel plumbing: the drained transactions and the wall-clock
timestamp are inputs here.  `parent_hash` is the executor's `last_hash`,
`number` its `next_number`, `nonce = 0` and `difficulty = U256::MAX`. -/
def Executor.build_block (sha3 : List Nat → B256) (coinbase : Address)
    (last_hash : B256) (next_number timestamp : Nat)
    (transactions : List Transaction) : SealedBlock :=
  Block.seal_slow sha3
    { header :=
        { parent_hash := last_hash
          nonce := 0
          difficulty := U256MAX
          number := next_number
          timestamp := timestamp
          coinbase := coinbase
          tx_root := Transactions.get_root sha3 transactions }
      transactions := transactions }

/-- Concrete hash used to instantiate the abstract SHA3 in witnesses. -/
def wSha3 : List Nat → B256 := fun _ => List.replicate 32 0

/-- Concrete recovery function for witnesses: always recovers the unit key. -/
def wRecover : B256 → Nat × Nat → Nat → Option Unit := fun _ _ _ => some ()

/-- Concrete SEC1 encoder for witnesses: a fixed 65-byte point. -/
def wEncode : Unit → List Nat := fun _ => 4 :: List.replicate 64 0

/-- Concrete transaction accepted by `wSha3`/`wRecover`/`wEncode`. -/
def wTx : Transaction :=
  { hash := List.replicate 32 0
    from_ := List.replicate 20 0
    to_ := List.replicate 20 0
    nonce := 0
    value := 0
    v := 0
    r := 1
    s := 1 }

/-- Claim C3: `Transaction::verify` returns `true` iff (i) the stored
`hash` field equals the recomputed SHA3-256 of
`from ‖ to ‖ nonce_le ‖ value_le`, (ii) `(v, r, s)` recovers a secp256k1
public key from that hash, and (iii) the address derived from that key
equals `from`. -/
theorem C3_transaction_verify_iff {K : Type} (sha3 : List Nat → B256)
    (recover : B256 → Nat × Nat → Nat → Option K) (encode : K → List Nat)
    (henc : Sec1Uncompressed encode) (t : Transaction) :
    t.verify sha3 recover encode = true ↔
      (t.computeHash sha3 = t.hash ∧
        ∃ rid sig key,
          recoveryIdFromByte t.v = some rid ∧
          signatureFromScalars t.r t.s = some sig ∧
          recover (t.computeHash sha3) sig rid = some key ∧
          derivedAddress sha3 encode key = t.from_) := by
  unfold Transaction.verify
  by_cases hh : t.computeHash sha3 = t.hash
  · rw [hh]
    simp only [ne_eq, not_true_eq_false, if_false, ite_false, true_and, hh]
    cases hrid : recoveryIdFromByte t.v with
    | none => simp [hrid]
    | some rid =>
      cases hsig : signatureFromScalars t.r t.s with
      | none => simp [hrid, hsig]
      | some sig =>
        cases hkey : recover t.hash sig rid with
        | none => simp [hrid, hsig, hkey]
        | some key =>
          obtain ⟨coords, hcoords, _⟩ := henc key
          simp [hrid, hsig, hkey, hcoords, derivedAddress, addressFromWord]
  · simp [hh]

/-- Witness for claim C3: the concrete transaction `wTx` verifies, by the
backward direction of the theorem at concrete inputs. -/
theorem C3_transaction_verify_iff_witness :
    wTx.verify wSha3 wRecover wEncode = true :=
  (C3_transaction_verify_iff wSha3 wRecover wEncode
      (fun _ => ⟨List.replicate 64 0, rfl, rfl⟩) wTx).mpr
    ⟨rfl, 0, (1, 1), (),
      by decide, by decide, rfl, rfl⟩

/-- `Account` (src/primitives.rs lines 269–295): `balance` is a `u128`,
`nonce` a `u64`.  `Account::default()` is the zero account. -/
structure Account where
  balance : Nat
  nonce : Nat
  deriving DecidableEq, Inhabited

/-- `TransactionReceipt` (src/primitives.rs lines 367–374). -/
structure TransactionReceipt where
  success : Bool
  block_hash : B256
  block_number : Nat
  from_ : Address
  to_ : Address
  deriving DecidableEq

/-- `TransactionReceipt::build`: a failure receipt for `tx` inside the
sealed block, carrying the block hash and number. -/
def TransactionReceipt.build (tx : Transaction) (block : SealedBlock) :
    TransactionReceipt :=
  { success := false
    block_hash := block.header.block_hash
    block_number := block.header.number
    from_ := tx.from_
    to_ := tx.to_ }

/-- Lookup in an association-list model of `HashMap`: the value at the
first matching key. -/
def mapFind {α β : Type} [DecidableEq α] : List (α × β) → α → Option β
  | [], _ => none
  | (k, v1) :: rest, a => if k = a then some v1 else mapFind rest a

/-- Insert in an association-list model of `HashMap`: overwrite the first
matching key, else append.  On lists with distinct keys this has exactly
the `HashMap::insert` semantics (iteration order is irrelevant to every
property proved below). -/
def mapInsert {α β : Type} [DecidableEq α] : List (α × β) → α → β → List (α × β)
  | [], a, b => [(a, b)]
  | (k, v1) :: rest, a, b =>
    if k = a then (k, b) :: rest else (k, v1) :: mapInsert rest a b

/-- `ChangeSet` (src/primitives.rs lines 388–410). -/
structure ChangeSet where
  touched_accounts : List (Address × Account)
  receipts : List (B256 × TransactionReceipt)
  deriving DecidableEq

/-- `ChangeSet::default()`. -/
def ChangeSet.empty : ChangeSet := { touched_accounts := [], receipts := [] }

/-- `ChangeSet::insert_receipt`. -/
def ChangeSet.insert_receipt (cs : ChangeSet) (hash : B256)
    (receipt : TransactionReceipt) : ChangeSet :=
  { cs with receipts := mapInsert cs.receipts hash receipt }

/-- `ChangeSet::insert_account`. -/
def ChangeSet.insert_account (cs : ChangeSet) (addr : Address)
    (account : Account) : ChangeSet :=
  { cs with touched_accounts := mapInsert cs.touched_accounts addr account }

/-- `State::get_account` (src/primitives.rs lines 428–435): the overlay
consults the change set first and falls back to the database read handle,
abstracted here as `readAcc`. -/
def stateGetAccount (readAcc : Address → Option Account) (cs : ChangeSet)
    (addr : Address) : Option Account :=
  match mapFind cs.touched_accounts addr with
  | some acc => some acc
  | none => readAcc addr

/-- One iteration of the loop in `Executor::execute_transactions`
(src/executor/mod.rs lines 158–199).  Note the source reads `to` from the
overlay before the updated `from` account is inserted, and inserts the
`from` account before the `to` account; for `from == to` the second
insert overwrites the first.  `u128` addition and the `u64` nonce
increment wrap (release-profile Rust); the balance subtraction is guarded
by the preceding balance check. -/
def Executor.execTx (readAcc : Address → Option Account) (block : SealedBlock)
    (cs : ChangeSet) (tx : Transaction) : ChangeSet :=
  let receipt := TransactionReceipt.build tx block
  match stateGetAccount readAcc cs tx.from_ with
  | none => cs.insert_receipt tx.hash receipt
  | some from_account =>
    if from_account.nonce ≠ tx.nonce then cs.insert_receipt tx.hash receipt
    else
      let to_account := (stateGetAccount readAcc cs tx.to_).getD default
      if from_account.balance < tx.value then cs.insert_receipt tx.hash receipt
      else
        let from1 : Account :=
          { balance := from_account.balance - tx.value
            nonce := (from_account.nonce + 1) % U64MOD }
        let to1 : Account :=
          { to_account with balance := (to_account.balance + tx.value) % U128MOD }
        (((cs.insert_receipt tx.hash { receipt with success := true }).insert_account
            tx.from_ from1).insert_account tx.to_ to1)

/-- `Executor::execute_transactions` (src/executor/mod.rs lines 151–202):
fold the per-transaction step over the block's transactions, starting
from an empty change set. -/
def Executor.execute_transactions (readAcc : Address → Option Account)
    (block : SealedBlock) : ChangeSet :=
  block.transactions.foldl (Executor.execTx readAcc block) ChangeSet.empty

/-- `InMemoryDB` (src/database.rs lines 36–44): four maps plus the
`number → hash` index. -/
structure InMemoryDB where
  accounts : List (Address × Account)
  blocks : List (B256 × SealedBlock)
  block_by_number : List (Nat × B256)
  transactions : List (B256 × Transaction)
  tx_receipts : List (B256 × TransactionReceipt)
  deriving DecidableEq

/-- `InMemoryDB::new()` / `Default`. -/
def InMemoryDB.new : InMemoryDB :=
  { accounts := [], blocks := [], block_by_number := [], transactions := []
    tx_receipts := [] }

/-- `DatabaseWriter::write_account` for `InMemoryDB`: plain insert,
always `Ok`. -/
def InMemoryDB.write_account (db : InMemoryDB) (addr : Address)
    (account : Account) : Except String InMemoryDB :=
  .ok { db with accounts := mapInsert db.accounts addr account }

/-- `DatabaseWriter::write_block` for `InMemoryDB`: store every contained
transaction, index the hash by the block number, store the block; always
`Ok`. -/
def InMemoryDB.write_block (db : InMemoryDB) (block_hash : B256)
    (block : SealedBlock) : Except String InMemoryDB :=
  .ok { db with
        transactions :=
          block.transactions.foldl (fun m tx => mapInsert m tx.hash tx)
            db.transactions
        block_by_number :=
          mapInsert db.block_by_number block.header.number block_hash
        blocks := mapInsert db.blocks block_hash block }

/-- `DatabaseWriter::write_transaction` for `InMemoryDB`: always `Ok`. -/
def InMemoryDB.write_transaction (db : InMemoryDB) (tx : Transaction) :
    Except String InMemoryDB :=
  .ok { db with transactions := mapInsert db.transactions tx.hash tx }

/-- `DatabaseWriter::write_transaction_receipt` for `InMemoryDB`: always
`Ok`. -/
def InMemoryDB.write_transaction_receipt (db : InMemoryDB) (tx_hash : B256)
    (tx_receipt : TransactionReceipt) : Except String InMemoryDB :=
  .ok { db with tx_receipts := mapInsert db.tx_receipts tx_hash tx_receipt }

/-- `DatabaseReader::read_account` for `InMemoryDB`. -/
def InMemoryDB.read_account (db : InMemoryDB) (addr : Address) : Option Account :=
  mapFind db.accounts addr

/-- `DatabaseReader::read_block_by_hash` for `InMemoryDB`. -/
def InMemoryDB.read_block_by_hash (db : InMemoryDB) (block_hash : B256) :
    Option SealedBlock :=
  mapFind db.blocks block_hash

/-- `DatabaseReader::read_block_by_number` for `InMemoryDB`: resolve the
number to a hash, then the hash to the block. -/
def InMemoryDB.read_block_by_number (db : InMemoryDB) (block_number : Nat) :
    Option SealedBlock :=
  match mapFind db.block_by_number block_number with
  | none => none
  | some h => db.read_block_by_hash h

/-- `DatabaseReader::read_transaction` for `InMemoryDB`. -/
def InMemoryDB.read_transaction (db : InMemoryDB) (hash : B256) :
    Option Transaction :=
  mapFind db.transactions hash

/-- The `DatabaseWriter + DatabaseReader` bound of `Executor<DB>`, as a
record of operations over an abstract database type. -/
structure DatabaseOps (DB : Type) where
  read_account : DB → Address → Option Account
  write_account : DB → Address → Account → Except String DB
  write_block : DB → B256 → SealedBlock → Except String DB
  write_transaction : DB → Transaction → Except String DB
  write_transaction_receipt : DB → B256 → TransactionReceipt → Except String DB

/-- The trait implementation of `InMemoryDB` packaged as operations. -/
def inMemoryOps : DatabaseOps InMemoryDB :=
  { read_account := InMemoryDB.read_account
    write_account := InMemoryDB.write_account
    write_block := InMemoryDB.write_block
    write_transaction := InMemoryDB.write_transaction
    write_transaction_receipt := InMemoryDB.write_transaction_receipt }

/-- `Executor::write_changeset` (src/executor/mod.rs lines 216–236):
write every touched account, then every receipt; a failing single write
is logged and skipped, and the function itself always returns `Ok`. -/
def Executor.write_changeset {DB : Type} (ops : DatabaseOps DB) (db : DB)
    (changeset : ChangeSet) : Except String DB :=
  let db1 := changeset.touched_accounts.foldl
    (fun d p =>
      match ops.write_account d p.1 p.2 with
      | .ok d2 => d2
      | .error _ => d) db
  let db2 := changeset.receipts.foldl
    (fun d p =>
      match ops.write_transaction_receipt d p.1 p.2 with
      | .ok d2 => d2
      | .error _ => d) db1
  .ok db2

/-- `Executor::write_block` (src/executor/mod.rs lines 205–214). -/
def Executor.writeBlockOp {DB : Type} (ops : DatabaseOps DB) (db : DB)
    (block : SealedBlock) : Except String DB :=
  ops.write_block db block.header.block_hash block

/-- The executor's loop state: the database plus `last_hash` and
`next_number` (src/executor/mod.rs lines 26–36). -/
structure ExecutorState (DB : Type) where
  db : DB
  last_hash : B256
  next_number : Nat

/-- `Executor::new`: `last_hash = INITIAL_HASH = B256::ZERO` and
`next_number = 1`. -/
def Executor.initState {DB : Type} (db : DB) : ExecutorState DB :=
  { db := db, last_hash := List.replicate 32 0, next_number := 1 }

/-- What one timer tick of `Executor::run` observes: either
`build_block` fails (mempool channel failure or wall clock error) or it
yields the drained batch together with the wall-clock timestamp. -/
inductive TickInput where
  | chanFail : TickInput
  | batch : List Transaction → Nat → TickInput
  deriving DecidableEq

/-- One iteration of the loop in `Executor::run` (src/executor/mod.rs
lines 66–113): build and seal the block, execute its transactions under
the read handle, release it, write the change set and the block under the
write handle, and only then advance `last_hash` and `next_number`.  The
result carries the committed block, if any.  (The `write_changeset` error
arm of the source is unreachable because `write_changeset` always returns
`Ok`; see its definition above.) -/
def Executor.tick {DB : Type} (sha3 : List Nat → B256) (ops : DatabaseOps DB)
    (coinbase : Address) (s : ExecutorState DB) (t : TickInput) :
    ExecutorState DB × Option SealedBlock :=
  match t with
  | .chanFail => (s, none)
  | .batch txs ts =>
    let block := Executor.build_block sha3 coinbase s.last_hash s.next_number ts txs
    let block_hash := block.header.block_hash
    let changeset := Executor.execute_transactions (ops.read_account s.db) block
    match Executor.write_changeset ops s.db changeset with
    | .error _ => (s, none)
    | .ok db1 =>
      match Executor.writeBlockOp ops db1 block with
      | .error _ => ({ s with db := db1 }, none)
      | .ok db2 =>
        ({ db := db2, last_hash := block_hash, next_number := s.next_number + 1 },
          some block)

/-- `Executor::run` over a whole schedule of tick inputs, collecting the
committed blocks in order. -/
def Executor.runTicks {DB : Type} (sha3 : List Nat → B256) (ops : DatabaseOps DB)
    (coinbase : Address) : ExecutorState DB → List TickInput →
    ExecutorState DB × List SealedBlock
  | s, [] => (s, [])
  | s, t :: ts =>
    let step := Executor.tick sha3 ops coinbase s t
    let rest := Executor.runTicks sha3 ops coinbase step.1 ts
    (rest.1, step.2.toList ++ rest.2)

/-- The hash-chain predicate: starting from parent hash `h` and number
`n`, each block links to its predecessor and numbers advance by one. -/
def ChainFrom (h : B256) (n : Nat) : List SealedBlock → Prop
  | [] => True
  | b :: bs =>
    b.header.parent_hash = h ∧ b.header.number = n ∧
      ChainFrom b.header.block_hash (n + 1) bs

/-- Total balance held by the accounts map of a database (mass of the
system). -/
def sumBalances (accounts : List (Address × Account)) : Nat :=
  (accounts.map (fun p => p.2.balance)).sum

/-- Lexicographic strict comparison of byte strings, as Rust's
`Ordering::Less` on fixed-size byte arrays. -/
def bytesLt : List Nat → List Nat → Bool
  | _, [] => false
  | [], _ :: _ => true
  | x :: xs, y :: ys =>
    if x < y then true else if y < x then false else bytesLt xs ys

/-- The comparator of `Transactions::sort` as a total preorder test:
compare the `from` byte strings, break ties by `nonce`. -/
def txLe (a b : Transaction) : Bool :=
  if a.from_ = b.from_ then a.nonce ≤ b.nonce else bytesLt a.from_ b.from_

/-- `Transactions::sort` (src/primitives.rs lines 326–331): a stable sort
by the `(from, nonce)` key (Rust `sort_by` is a stable comparison sort;
`mergeSort` is the stable comparison sort of the Lean library). -/
def Transactions.sort (txs : List Transaction) : List Transaction :=
  txs.mergeSort txLe

/-- The pop-push loop of `Mempool::get_transactions` with `cap` pops
remaining: collected transactions plus the queue left behind.  The Rust
loop breaks once 100 transactions are collected, leaving the rest
enqueued, or earlier when the queue empties. -/
def Mempool.drainLoop : Nat → List Transaction → List Transaction × List Transaction
  | 0, q => ([], q)
  | _ + 1, [] => ([], [])
  | cap + 1, tx :: q =>
    let rest := Mempool.drainLoop cap q
    (tx :: rest.1, rest.2)

/-- `Mempool::get_transactions` (src/executor/mempool.rs lines 82–95):
pop up to 100 transactions FIFO, then sort them by `(from, nonce)`.
Returns the drained batch and the remaining queue. -/
def Mempool.get_transactions (q : List Transaction) :
    List Transaction × List Transaction :=
  let drained := Mempool.drainLoop 100 q
  (Transactions.sort drained.1, drained.2)

/-- The scan loop of `Message::get_line`: from index `i` with `fuel`
iterations left (the Rust loop ranges over `start..(len - 1)`), find the
first index holding `\r` followed by `\n`. -/
def scanFrom (buf : List Nat) : Nat → Nat → Option Nat
  | _, 0 => none
  | i, fuel + 1 =>
    if buf.getD i 0 = 13 ∧ buf.getD (i + 1) 0 = 10 then some i
    else scanFrom buf (i + 1) fuel

/-- Positions where the buffer holds the delimiter bytes `\r\n`. -/
def CRLFAt (buf : List Nat) (i : Nat) : Prop :=
  i + 1 < buf.length ∧ buf.getD i 0 = 13 ∧ buf.getD (i + 1) 0 = 10

instance (buf : List Nat) (i : Nat) : Decidable (CRLFAt buf i) :=
  inferInstanceAs (Decidable (_ ∧ _ ∧ _))

/-- `Message::get_line` (src/server/message.rs lines 49–69): fewer than
two buffered bytes report incomplete (`none`); otherwise scan
`pos..(len - 1)` for the first `\r\n` and return the bytes between `pos`
and the delimiter together with the cursor position just past it. -/
def Message.get_line (buf : List Nat) (pos : Nat) : Option (List Nat × Nat) :=
  if buf.length < 2 then none
  else
    match scanFrom buf pos (buf.length - 1 - pos) with
    | some i => some ((buf.drop pos).take (i - pos), i + 2)
    | none => none

/-- `Connection::parse_message` (src/server/connection.rs lines 45–64) at
the framing level: on a complete line, return it and the buffer after
`advance(len)`; on `IncompleteMessage` return `none` (the caller awaits
more bytes).  The JSON decoding of the returned line is outside this
model. -/
def Connection.parse_message (buf : List Nat) : Option (List Nat × List Nat) :=
  match Message.get_line buf 0 with
  | none => none
  | some lp => some (lp.1, buf.drop lp.2)

/-- `BlockReq` (src/server/message.rs lines 72–77). -/
inductive BlockReq where
  | Range : Nat → Nat → BlockReq
  | Number : Nat → BlockReq
  | Hash : B256 → BlockReq
  deriving DecidableEq

/-- `TransactionReq` (src/server/message.rs lines 79–83). -/
inductive TransactionReq where
  | Many : List B256 → TransactionReq
  | Hash : B256 → TransactionReq
  deriving DecidableEq

/-- `Message` (src/server/message.rs lines 8–27). -/
inductive Message where
  | Transaction : Transaction → Message
  | Block : SealedBlock → Message
  | Blocks : List SealedBlock → Message
  | BlockReq : BlockReq → Message
  | TransactionReq : TransactionReq → Message
  | NonExistentBlock : Message
  | NonExistentTx : Message
  | InvalidMessage : String → Message
  | InvalidTransaction : Message
  | InternalError : String → Message
  | Ok : Message
  deriving DecidableEq

/-- The response text of the `Block`/`Blocks` arm of
`Handler::handle_message`, with the apostrophe spelled as its code
point. -/
def rpcBlocksMsg : String :=
  "The rpc server doesn" ++ (Char.ofNat 39).toString ++ "t expect blocks"

/-- `Handler::handle_transaction` (src/server/handler.rs lines 105–119):
verify on the blocking pool, then forward to the mempool; `send` models
the channel send, yielding the error display text on failure. -/
def Handler.handle_transaction {K : Type} (sha3 : List Nat → B256)
    (recover : B256 → Nat × Nat → Nat → Option K) (encode : K → List Nat)
    (send : Transaction → Option String) (tx : Transaction) : Message :=
  if ¬ (tx.verify sha3 recover encode) then Message.InvalidTransaction
  else
    match send tx with
    | some e => Message.InternalError ("Internal error: " ++ e)
    | none => Message.Ok

/-- `Handler::handle_block_req` (src/server/handler.rs lines 121–133);
the `Range` arm is `unimplemented` and yields no response (`none`). -/
def Handler.handle_block_req (db : InMemoryDB) : BlockReq → Option Message
  | .Hash h =>
    some (match db.read_block_by_hash h with
      | some b => Message.Block b
      | none => Message.NonExistentBlock)
  | .Number n =>
    some (match db.read_block_by_number n with
      | some b => Message.Block b
      | none => Message.NonExistentBlock)
  | .Range _ _ => none

/-- `Handler::handle_transaction_req` (src/server/handler.rs lines
135–149); the `Many` arm is `unimplemented`. -/
def Handler.handle_transaction_req (db : InMemoryDB) :
    TransactionReq → Option Message
  | .Hash h =>
    some (match db.read_transaction h with
      | some tx => Message.Transaction tx
      | none => Message.NonExistentTx)
  | .Many _ => none

/-- `Handler::handle_message` (src/server/handler.rs lines 86–103). -/
def Handler.handle_message {K : Type} (sha3 : List Nat → B256)
    (recover : B256 → Nat × Nat → Nat → Option K) (encode : K → List Nat)
    (send : Transaction → Option String) (db : InMemoryDB) :
    Message → Option Message
  | .Transaction tx =>
    some (Handler.handle_transaction sha3 recover encode send tx)
  | .BlockReq req => Handler.handle_block_req db req
  | .TransactionReq req => Handler.handle_transaction_req db req
  | .Block _ => some (Message.InvalidMessage rpcBlocksMsg)
  | .Blocks _ => some (Message.InvalidMessage rpcBlocksMsg)
  | .InvalidMessage _ => some (Message.InvalidMessage "")
  | .Ok => some (Message.InvalidMessage "")
  | .InternalError _ => some (Message.InvalidMessage "")
  | .InvalidTransaction => some (Message.InvalidMessage "")
  | .NonExistentBlock => some (Message.InvalidMessage "")
  | .NonExistentTx => some (Message.InvalidMessage "")

/-- The self-transfer address of the executor counterexamples. -/
def cexAddr : Address := List.replicate 20 1

/-- A self-transfer: `from == to`, matching nonce, value within balance.
The stored hash and signature fields are arbitrary — execution never
re-checks them. -/
def cexTx : Transaction :=
  { hash := List.replicate 32 7
    from_ := cexAddr
    to_ := cexAddr
    nonce := 0
    value := 10
    v := 0
    r := 1
    s := 1 }

/-- Genesis database: a single chainspec preallocation of 100 coins at
`cexAddr`, written through `write_account` as `write_spec` does. -/
def cexDb : InMemoryDB :=
  { InMemoryDB.new with
    accounts := [(cexAddr, { balance := 100, nonce := 0 })] }

/-- The sealed block holding the self-transfer, exactly as the executor
builds it on its first tick (timestamp 5) under the witness hash. -/
def cexBlock : SealedBlock :=
  Executor.build_block wSha3 (List.replicate 20 0) (List.replicate 32 0) 1 5
    [cexTx]

/-- Any list of bytes denotes, little-endian, a value below `256 ^ length`. -/
theorem leVal_lt_pow (l : List Nat) (h : ∀ b ∈ l, b < 256) :
    leVal l < 256 ^ l.length := by
  induction l with
  | nil => simp [leVal]
  | cons b rest ih =>
    have hb : b < 256 := h b (List.mem_cons_self b rest)
    have hrest : leVal rest < 256 ^ rest.length :=
      ih (fun x hx => h x (List.mem_cons_of_mem b hx))
    have : b + 256 * leVal rest < 256 * (leVal rest + 1) := by omega
    calc leVal (b :: rest) = b + 256 * leVal rest := rfl
      _ < 256 * (leVal rest + 1) := this
      _ ≤ 256 * 256 ^ rest.length := by
          exact Nat.mul_le_mul_left 256 (by omega)
      _ = 256 ^ (b :: rest).length := by
          rw [List.length_cons, pow_succ, Nat.mul_comm]

/-- A well-formed 32-byte word denotes at most `U256::MAX`. -/
theorem leVal_le_U256MAX (l : List Nat) (h : ValidB256 l) : leVal l ≤ U256MAX := by
  have h1 : leVal l < 256 ^ l.length := leVal_lt_pow l h.2
  rw [h.1] at h1
  have h2 : (256 : Nat) ^ 32 = 2 ^ 256 := by norm_num
  rw [h2] at h1
  have h3 : (0 : Nat) < 2 ^ 256 := Nat.pos_pow_of_pos 256 (by norm_num)
  unfold U256MAX
  omega

/-- The witness hash function is a well-formed SHA3 stand-in. -/
theorem wSha3_valid : ValidSha3 wSha3 := by
  intro l
  constructor
  · simp [wSha3]
  · intro b hb
    simp [wSha3] at hb
    omega

/-- A verifying transaction re-hashes to its stored hash (the first check
inside `Transaction::verify`). -/
theorem verify_computeHash_eq {K : Type} (sha3 : List Nat → B256)
    (recover : B256 → Nat × Nat → Nat → Option K) (encode : K → List Nat)
    (t : Transaction) (hv : t.verify sha3 recover encode = true) :
    t.computeHash sha3 = t.hash := by
  by_cases hh : t.computeHash sha3 = t.hash
  · exact hh
  · unfold Transaction.verify at hv
    simp [hh] at hv

/-- Claim C4: blocks built and sealed by the executor re-hash to their
stored `block_hash` and satisfy the little-endian `U256` difficulty bound
(difficulty is `U256::MAX`); and `SealedBlock::verify` returns `true`
exactly when the recomputed hash matches the stored one, that hash is at
most the difficulty, and every included transaction is valid. -/
theorem C4_sealed_block_hash_and_verify {K : Type} (sha3 : List Nat → B256)
    (recover : B256 → Nat × Nat → Nat → Option K) (encode : K → List Nat)
    (hsha : ValidSha3 sha3) :
    (∀ (coinbase : Address) (last_hash : B256) (number ts : Nat)
        (txs : List Transaction),
      (Executor.build_block sha3 coinbase last_hash number ts txs).hash sha3 =
          (Executor.build_block sha3 coinbase last_hash number ts txs).header.block_hash ∧
        leVal ((Executor.build_block sha3 coinbase last_hash number ts txs).hash sha3) ≤
          (Executor.build_block sha3 coinbase last_hash number ts txs).header.difficulty) ∧
    (∀ sb : SealedBlock,
      sb.verify sha3 recover encode = true ↔
        (sb.hash sha3 = sb.header.block_hash ∧
          leVal (sb.hash sha3) ≤ sb.header.difficulty ∧
          ∀ tx ∈ sb.transactions, tx.verify sha3 recover encode = true)) := by
  constructor
  · intro coinbase last_hash number ts txs
    refine ⟨rfl, ?_⟩
    have hb : leVal ((Executor.build_block sha3 coinbase last_hash number ts txs).hash sha3) ≤ U256MAX :=
      leVal_le_U256MAX _ (hsha _)
    exact hb
  · intro sb
    unfold SealedBlock.verify
    simp only [Bool.and_eq_true, List.all_eq_true, decide_eq_true_eq]
    constructor
    · rintro ⟨htxs, hhash, hle⟩
      exact ⟨hhash, hle, fun tx htx => ((htxs tx htx).1)⟩
    · rintro ⟨hhash, hle, htxs⟩
      refine ⟨fun tx htx => ⟨htxs tx htx, ?_⟩, hhash, hle⟩
      exact verify_computeHash_eq sha3 recover encode tx (htxs tx htx)

/-- Witness for claim C4: at the concrete hash stand-in, the block the
executor builds from an empty batch re-hashes to its stored hash, meets
the difficulty bound, and its verify-decomposition holds. -/
theorem C4_sealed_block_hash_and_verify_witness :
    (Executor.build_block wSha3 (List.replicate 20 0) (List.replicate 32 0) 1 5 []).hash wSha3 =
        (Executor.build_block wSha3 (List.replicate 20 0) (List.replicate 32 0) 1 5 []).header.block_hash ∧
      leVal ((Executor.build_block wSha3 (List.replicate 20 0) (List.replicate 32 0) 1 5 []).hash wSha3) ≤
        (Executor.build_block wSha3 (List.replicate 20 0) (List.replicate 32 0) 1 5 []).header.difficulty :=
  (C4_sealed_block_hash_and_verify wSha3 wRecover wEncode wSha3_valid).1
    (List.replicate 20 0) (List.replicate 32 0) 1 5 []

/-- Claim C1 (code bug): evaluation of `execute_transactions` at a
self-transfer that passes the sender, nonce and balance checks.  The
sender holds 100 coins at nonce 0, and the transaction sends 10 coins to
itself with nonce 0.  The receipt is successful, but the account ends at
balance 110 with nonce 0 — because the stale `to` account, read before
the updated `from` account was inserted, overwrites it at the same key —
instead of the claimed unchanged balance 100 and incremented nonce 1. -/
theorem C1_self_transfer_evaluation :
    stateGetAccount cexDb.read_account ChangeSet.empty cexTx.from_ =
        some { balance := 100, nonce := 0 } ∧
      cexTx.from_ = cexTx.to_ ∧ cexTx.nonce = 0 ∧ cexTx.value ≤ 100 ∧
      mapFind (Executor.execute_transactions cexDb.read_account
          cexBlock).touched_accounts cexAddr =
        some { balance := 110, nonce := 0 } ∧
      mapFind (Executor.execute_transactions cexDb.read_account
          cexBlock).receipts cexTx.hash =
        some { success := true
               block_hash := List.replicate 32 0
               block_number := 1
               from_ := cexAddr
               to_ := cexAddr } := by
  decide

/-- Claim C2 (code bug): evaluation of a full executor tick at the
self-transfer block.  The genesis mass is 100, but after executing and
committing the block the account mass is 110: the self-transfer minted
10 coins, so the balance sum is not preserved. -/
theorem C2_mass_conservation_evaluation :
    sumBalances cexDb.accounts = 100 ∧
      sumBalances ((Executor.tick wSha3 inMemoryOps (List.replicate 20 0)
          (Executor.initState cexDb) (TickInput.batch [cexTx] 5)).1).db.accounts
        = 110 := by
  decide

/-- Claim C7: a transaction whose sender is absent from the overlay, or
whose nonce mismatches the sender's, or whose value exceeds the sender's
balance, records exactly one failure receipt under its hash and leaves
the touched accounts untouched. -/
theorem C7_failed_transaction_no_mutation
    (readAcc : Address → Option Account) (block : SealedBlock)
    (cs : ChangeSet) (tx : Transaction)
    (h : stateGetAccount readAcc cs tx.from_ = none
      ∨ (∃ acc, stateGetAccount readAcc cs tx.from_ = some acc ∧
          acc.nonce ≠ tx.nonce)
      ∨ (∃ acc, stateGetAccount readAcc cs tx.from_ = some acc ∧
          acc.nonce = tx.nonce ∧ acc.balance < tx.value)) :
    (Executor.execTx readAcc block cs tx).touched_accounts =
        cs.touched_accounts ∧
      (Executor.execTx readAcc block cs tx).receipts =
        mapInsert cs.receipts tx.hash (TransactionReceipt.build tx block) ∧
      (TransactionReceipt.build tx block).success = false := by
  rcases h with h1 | ⟨acc, ha, hn⟩ | ⟨acc, ha, hn, hb⟩
  · simp [Executor.execTx, h1, ChangeSet.insert_receipt,
      TransactionReceipt.build]
  · simp [Executor.execTx, ha, hn, ChangeSet.insert_receipt,
      TransactionReceipt.build]
  · simp [Executor.execTx, ha, hn, hb, ChangeSet.insert_receipt,
      TransactionReceipt.build]

/-- Witness for claim C7: a transaction from an unknown sender leaves the
empty change set's accounts empty and records one failure receipt. -/
theorem C7_failed_transaction_no_mutation_witness :
    (Executor.execTx (fun _ => none) cexBlock ChangeSet.empty
        cexTx).touched_accounts = ChangeSet.empty.touched_accounts ∧
      (Executor.execTx (fun _ => none) cexBlock ChangeSet.empty
          cexTx).receipts =
        mapInsert ChangeSet.empty.receipts cexTx.hash
          (TransactionReceipt.build cexTx cexBlock) ∧
      (TransactionReceipt.build cexTx cexBlock).success = false :=
  C7_failed_transaction_no_mutation (fun _ => none) cexBlock ChangeSet.empty
    cexTx (Or.inl rfl)

/-- Strict lexicographic byte comparison is irreflexive. -/
theorem bytesLt_irrefl : ∀ l : List Nat, bytesLt l l = false := by
  intro l
  induction l with
  | nil => rfl
  | cons x xs ih => simp [bytesLt, ih]

/-- Strict lexicographic byte comparison is trichotomous. -/
theorem bytesLt_total (l1 l2 : List Nat) :
    l1 = l2 ∨ bytesLt l1 l2 = true ∨ bytesLt l2 l1 = true := by
  induction l1 generalizing l2 with
  | nil =>
    cases l2 with
    | nil => exact Or.inl rfl
    | cons y ys => exact Or.inr (Or.inl (by simp [bytesLt]))
  | cons x xs ih =>
    cases l2 with
    | nil => exact Or.inr (Or.inr (by simp [bytesLt]))
    | cons y ys =>
      by_cases hxy : x < y
      · exact Or.inr (Or.inl (by simp [bytesLt, hxy]))
      · by_cases hyx : y < x
        · exact Or.inr (Or.inr (by simp [bytesLt, hyx]))
        · have hxe : x = y := by omega
          subst hxe
          rcases ih ys with heq | hlt | hgt
          · exact Or.inl (by rw [heq])
          · exact Or.inr (Or.inl (by simp [bytesLt, hlt]))
          · exact Or.inr (Or.inr (by simp [bytesLt, hgt]))

/-- Strict lexicographic byte comparison is transitive. -/
theorem bytesLt_trans :
    ∀ (l1 l2 l3 : List Nat), bytesLt l1 l2 = true → bytesLt l2 l3 = true →
      bytesLt l1 l3 = true := by
  intro l1
  induction l1 with
  | nil =>
    intro l2 l3 h12 h23
    cases l3 with
    | nil =>
      cases l2 with
      | nil => simp [bytesLt] at h12
      | cons y ys => simp [bytesLt] at h23
    | cons z zs => simp [bytesLt]
  | cons x xs ih =>
    intro l2 l3 h12 h23
    cases l2 with
    | nil => simp [bytesLt] at h12
    | cons y ys =>
      cases l3 with
      | nil => simp [bytesLt] at h23
      | cons z zs =>
        by_cases hxy : x < y
        · by_cases hyz : y < z
          · simp [bytesLt, show x < z by omega]
          · by_cases hzy : z < y
            · simp [bytesLt, hyz, hzy] at h23
            · have hye : y = z := by omega
              subst hye
              simp [bytesLt, hxy]
        · by_cases hyx : y < x
          · simp [bytesLt, hxy, hyx] at h12
          · have hxe : x = y := by omega
            subst hxe
            simp only [bytesLt, if_neg (lt_irrefl x)] at h12
            by_cases hxz : x < z
            · simp [bytesLt, hxz]
            · by_cases hzx : z < x
              · simp [bytesLt, hxz, hzx] at h23
              · have hxe2 : x = z := by omega
                subst hxe2
                simp only [bytesLt, if_neg (lt_irrefl x)] at h23 ⊢
                exact ih ys zs h12 h23

/-- The `(from, nonce)` comparator is total. -/
theorem txLe_total (a b : Transaction) : (txLe a b || txLe b a) = true := by
  unfold txLe
  by_cases h : a.from_ = b.from_
  · rw [if_pos h, if_pos h.symm]
    rcases Nat.le_total a.nonce b.nonce with hle | hle <;> simp [hle]
  · rw [if_neg h, if_neg (fun e => h e.symm)]
    rcases bytesLt_total a.from_ b.from_ with heq | hlt | hgt
    · exact absurd heq h
    · simp [hlt]
    · simp [hgt]

/-- The `(from, nonce)` comparator is transitive. -/
theorem txLe_trans (a b c : Transaction) (hab : txLe a b = true)
    (hbc : txLe b c = true) : txLe a c = true := by
  unfold txLe at hab hbc ⊢
  by_cases h1 : a.from_ = b.from_ <;> by_cases h2 : b.from_ = c.from_
  · rw [if_pos h1] at hab
    rw [if_pos h2] at hbc
    rw [if_pos (h1.trans h2)]
    simp only [decide_eq_true_eq] at hab hbc ⊢
    omega
  · rw [if_neg h2] at hbc
    rw [if_neg (fun e => h2 (h1.symm.trans e)), h1]
    exact hbc
  · rw [if_neg h1] at hab
    rw [if_neg (fun e => h1 (e.trans h2.symm)), ← h2]
    exact hab
  · rw [if_neg h1] at hab
    rw [if_neg h2] at hbc
    have h3 : bytesLt a.from_ c.from_ = true := bytesLt_trans _ _ _ hab hbc
    have h4 : ¬ a.from_ = c.from_ := by
      intro e
      rw [e, bytesLt_irrefl] at h3
      exact Bool.false_ne_true h3
    rw [if_neg h4]
    exact h3

/-- The drain loop takes the first `cap` queue entries and leaves the
rest. -/
theorem drainLoop_eq (cap : Nat) :
    ∀ q : List Transaction,
      Mempool.drainLoop cap q = (q.take cap, q.drop cap) := by
  induction cap with
  | zero => intro q; simp [Mempool.drainLoop]
  | succ n ih =>
    intro q
    cases q with
    | nil => simp [Mempool.drainLoop]
    | cons t ts => simp [Mempool.drainLoop, ih]

/-- Claim C5: a mempool drain returns at most 100 transactions, the
result is a permutation of the first `min(100, len)` queued transactions
in arrival order, it is sorted ascending by the `(from, nonce)` key, and
the queue retains exactly the remaining suffix. -/
theorem C5_mempool_drain (q : List Transaction) :
    (Mempool.get_transactions q).1.length ≤ 100 ∧
      List.Perm (Mempool.get_transactions q).1 (q.take 100) ∧
      List.Pairwise (fun a b => txLe a b = true)
        (Mempool.get_transactions q).1 ∧
      (Mempool.get_transactions q).2 = q.drop 100 := by
  unfold Mempool.get_transactions Transactions.sort
  rw [drainLoop_eq]
  refine ⟨?_, ?_, ?_, rfl⟩
  · rw [(List.mergeSort_perm (q.take 100) txLe).length_eq]
    exact (List.length_take 100 q).le.trans (Nat.min_le_left 100 q.length)
  · exact List.mergeSort_perm (q.take 100) txLe
  · exact List.sorted_mergeSort txLe_trans txLe_total (q.take 100)

/-- The scan loop reports no hit when no scanned index holds `\r\n`. -/
theorem scanFrom_eq_none (buf : List Nat) :
    ∀ (fuel p : Nat),
      (∀ j, p ≤ j → j < p + fuel →
        ¬(buf.getD j 0 = 13 ∧ buf.getD (j + 1) 0 = 10)) →
      scanFrom buf p fuel = none := by
  intro fuel
  induction fuel with
  | zero => intro p _; rfl
  | succ n ih =>
    intro p h
    simp only [scanFrom]
    rw [if_neg (h p le_rfl (by omega))]
    exact ih (p + 1) (fun j hj1 hj2 => h j (by omega) (by omega))

/-- The scan loop returns the first in-range index holding `\r\n`. -/
theorem scanFrom_eq_some (buf : List Nat) :
    ∀ (fuel p i : Nat), p ≤ i → i < p + fuel →
      (buf.getD i 0 = 13 ∧ buf.getD (i + 1) 0 = 10) →
      (∀ j, p ≤ j → j < i →
        ¬(buf.getD j 0 = 13 ∧ buf.getD (j + 1) 0 = 10)) →
      scanFrom buf p fuel = some i := by
  intro fuel
  induction fuel with
  | zero => intro p i h1 h2 _ _; omega
  | succ n ih =>
    intro p i h1 h2 hhit hmin
    by_cases hpi : p = i
    · subst hpi
      simp only [scanFrom]
      rw [if_pos hhit]
    · simp only [scanFrom]
      rw [if_neg (hmin p le_rfl (by omega))]
      exact ih (p + 1) i (by omega) (by omega) hhit
        (fun j hj1 hj2 => hmin j (by omega) hj2)

/-- Claim C6: message framing.  With fewer than two buffered bytes (in
particular an empty buffer) parsing reports incomplete; if the buffer
holds `\r\n` — including as its final two bytes — the prefix before the
first `\r\n` is returned and the buffer advances just past the
delimiter, leaving zero bytes when the buffer ends exactly there; with no
`\r\n` parsing reports incomplete. -/
theorem C6_framing (buf : List Nat) :
    (buf.length < 2 → Connection.parse_message buf = none) ∧
      (∀ i, CRLFAt buf i → (∀ j, j < i → ¬ CRLFAt buf j) →
        Connection.parse_message buf = some (buf.take i, buf.drop (i + 2)) ∧
          (buf.length = i + 2 → buf.drop (i + 2) = [])) ∧
      ((∀ i, ¬ CRLFAt buf i) → Connection.parse_message buf = none) := by
  refine ⟨?_, ?_, ?_⟩
  · intro hlen
    unfold Connection.parse_message Message.get_line
    rw [if_pos hlen]
  · intro i hi hmin
    rcases hi with ⟨hilen, hir, hin⟩
    have hlen : ¬ buf.length < 2 := by omega
    have hscan : scanFrom buf 0 (buf.length - 1 - 0) = some i := by
      refine scanFrom_eq_some buf (buf.length - 1 - 0) 0 i (Nat.zero_le i)
        (by omega) ⟨hir, hin⟩ ?_
      intro j hj0 hji hhit
      exact hmin j hji ⟨by omega, hhit⟩
    constructor
    · unfold Connection.parse_message Message.get_line
      rw [if_neg hlen, hscan]
      simp
    · intro hend
      rw [← hend]
      exact List.drop_length _
  · intro hno
    unfold Connection.parse_message Message.get_line
    by_cases hlen : buf.length < 2
    · rw [if_pos hlen]
    · rw [if_neg hlen]
      have hscan : scanFrom buf 0 (buf.length - 1 - 0) = none := by
        refine scanFrom_eq_none buf (buf.length - 1 - 0) 0 ?_
        intro j _ hj hhit
        exact hno j ⟨by omega, hhit⟩
      rw [hscan]

/-- Witness for claim C6: a three-byte buffer ending in `\r\n` parses to
its one-byte prefix with nothing left over, and a single-byte buffer is
incomplete. -/
theorem C6_framing_witness :
    Connection.parse_message [65, 13, 10] = some ([65], []) ∧
      Connection.parse_message [13] = none := by
  constructor
  · have h := ((C6_framing [65, 13, 10]).2.1 1 (by decide)
      (by decide)).1
    simpa using h
  · exact (C6_framing [13]).1 (by decide)

/-- The blocks committed by a run of ticks form a hash chain rooted at
the starting `last_hash` and `next_number`. -/
theorem runTicks_chain {DB : Type} (sha3 : List Nat → B256)
    (ops : DatabaseOps DB) (coinbase : Address) :
    ∀ (ticks : List TickInput) (s : ExecutorState DB),
      ChainFrom s.last_hash s.next_number
        (Executor.runTicks sha3 ops coinbase s ticks).2 := by
  intro ticks
  induction ticks with
  | nil => intro s; exact trivial
  | cons t ts ih =>
    intro s
    cases t with
    | chanFail =>
      simpa [Executor.runTicks, Executor.tick] using ih s
    | batch txs ts2 =>
      simp only [Executor.runTicks, Executor.tick, Executor.write_changeset]
      cases hwb : Executor.writeBlockOp ops _
          (Executor.build_block sha3 coinbase s.last_hash s.next_number ts2 txs) with
      | error e =>
        simpa using ih { s with db := _ }
      | ok db2 =>
        refine ⟨rfl, rfl, ?_⟩
        exact ih { db := db2
                   last_hash := (Executor.build_block sha3 coinbase s.last_hash
                     s.next_number ts2 txs).header.block_hash
                   next_number := s.next_number + 1 }

/-- Adjacent blocks of a hash chain link by parent hash and consecutive
numbers. -/
theorem chainFrom_adjacent :
    ∀ (bs : List SealedBlock) (h : B256) (n : Nat), ChainFrom h n bs →
      ∀ i, i + 1 < bs.length →
        ∃ b1 b2, bs[i]? = some b1 ∧ bs[i + 1]? = some b2 ∧
          b2.header.parent_hash = b1.header.block_hash ∧
          b2.header.number = b1.header.number + 1 := by
  intro bs
  induction bs with
  | nil => intro h n _ i hi; simp at hi
  | cons b rest ih =>
    intro h n hc i hi
    rcases hc with ⟨hp, hn, hrest⟩
    cases i with
    | zero =>
      cases rest with
      | nil => simp at hi
      | cons b2 rest2 =>
        rcases hrest with ⟨hp2, hn2, _⟩
        exact ⟨b, b2, by simp, by simp, hp2, by rw [hn2, hn]⟩
    | succ j =>
      have hres := ih b.header.block_hash (n + 1) hrest j (by simpa using hi)
      simpa using hres

/-- Claim C8: the executor starts from `last_hash = 0x00…00` and
`next_number = 1`, and any two consecutively committed blocks link by
parent hash and by block number incremented by one (state advances only
on successful commits, which is what `runTicks` records). -/
theorem C8_chain_linkage {DB : Type} (sha3 : List Nat → B256)
    (ops : DatabaseOps DB) (coinbase : Address) (db0 : DB)
    (ticks : List TickInput) :
    (Executor.initState db0).last_hash = List.replicate 32 0 ∧
      (Executor.initState db0).next_number = 1 ∧
      ∀ i, i + 1 < (Executor.runTicks sha3 ops coinbase
          (Executor.initState db0) ticks).2.length →
        ∃ b1 b2,
          (Executor.runTicks sha3 ops coinbase (Executor.initState db0)
              ticks).2[i]? = some b1 ∧
            (Executor.runTicks sha3 ops coinbase (Executor.initState db0)
                ticks).2[i + 1]? = some b2 ∧
            b2.header.parent_hash = b1.header.block_hash ∧
            b2.header.number = b1.header.number + 1 :=
  ⟨rfl, rfl, fun i hi =>
    chainFrom_adjacent _ _ _
      (runTicks_chain sha3 ops coinbase ticks (Executor.initState db0)) i hi⟩

/-- Witness for claim C8: two committed blocks of a concrete two-tick
in-memory run are adjacent-linked. -/
theorem C8_chain_linkage_witness :
    ∃ b1 b2,
      (Executor.runTicks wSha3 inMemoryOps (List.replicate 20 0)
          (Executor.initState InMemoryDB.new)
          [TickInput.batch [] 3, TickInput.batch [] 4]).2[0]? = some b1 ∧
        (Executor.runTicks wSha3 inMemoryOps (List.replicate 20 0)
            (Executor.initState InMemoryDB.new)
            [TickInput.batch [] 3, TickInput.batch [] 4]).2[1]? = some b2 ∧
        b2.header.parent_hash = b1.header.block_hash ∧
        b2.header.number = b1.header.number + 1 :=
  (C8_chain_linkage wSha3 inMemoryOps (List.replicate 20 0) InMemoryDB.new
    [TickInput.batch [] 3, TickInput.batch [] 4]).2.2 0 (by decide)

/-- Counterexample for claim C9: the code's response to a client `Block`
message is `InvalidMessage("The rpc server doesn't expect blocks")`,
which is not the string `"server does not expect blocks"` stated by the
claim. -/
theorem C9_response_string_counterexample :
    Handler.handle_message wSha3 wRecover wEncode (fun _ => none)
        InMemoryDB.new (Message.Block cexBlock) =
      some (Message.InvalidMessage rpcBlocksMsg) ∧
      rpcBlocksMsg ≠ "server does not expect blocks" :=
  ⟨rfl, by decide⟩

/-- Claim C9 as amended: `Block` and `Blocks` messages are answered with
`InvalidMessage("The rpc server doesn't expect blocks")`, and every
response-shaped message with `InvalidMessage("")`. -/
theorem C9_dispatch_responses {K : Type} (sha3 : List Nat → B256)
    (recover : B256 → Nat × Nat → Nat → Option K) (encode : K → List Nat)
    (send : Transaction → Option String) (db : InMemoryDB) :
    (∀ b, Handler.handle_message sha3 recover encode send db
        (Message.Block b) = some (Message.InvalidMessage rpcBlocksMsg)) ∧
      (∀ bs, Handler.handle_message sha3 recover encode send db
        (Message.Blocks bs) = some (Message.InvalidMessage rpcBlocksMsg)) ∧
      (∀ s1, Handler.handle_message sha3 recover encode send db
        (Message.InvalidMessage s1) = some (Message.InvalidMessage "")) ∧
      Handler.handle_message sha3 recover encode send db Message.Ok =
        some (Message.InvalidMessage "") ∧
      (∀ s2, Handler.handle_message sha3 recover encode send db
        (Message.InternalError s2) = some (Message.InvalidMessage "")) ∧
      Handler.handle_message sha3 recover encode send db
        Message.InvalidTransaction = some (Message.InvalidMessage "") ∧
      Handler.handle_message sha3 recover encode send db
        Message.NonExistentBlock = some (Message.InvalidMessage "") ∧
      Handler.handle_message sha3 recover encode send db
        Message.NonExistentTx = some (Message.InvalidMessage "") :=
  ⟨fun _ => rfl, fun _ => rfl, fun _ => rfl, rfl, fun _ => rfl, rfl, rfl, rfl⟩

/-- Claim C10: every `DatabaseWriter` method of the in-memory database
returns `Ok` on every input, and consequently a tick of the executor
over the in-memory database that obtains a batch always commits its
block and advances `last_hash` and `next_number`. -/
theorem C10_inmemory_writes_always_ok :
    (∀ db addr acct, ∃ db2,
        InMemoryDB.write_account db addr acct = .ok db2) ∧
      (∀ db h b, ∃ db2, InMemoryDB.write_block db h b = .ok db2) ∧
      (∀ db tx, ∃ db2, InMemoryDB.write_transaction db tx = .ok db2) ∧
      (∀ db h r1, ∃ db2,
        InMemoryDB.write_transaction_receipt db h r1 = .ok db2) ∧
      (∀ (sha3 : List Nat → B256) (coinbase : Address)
          (s : ExecutorState InMemoryDB) (txs : List Transaction) (ts : Nat),
        ∃ b db2,
          Executor.tick sha3 inMemoryOps coinbase s (TickInput.batch txs ts) =
            ({ db := db2
               last_hash := b.header.block_hash
               next_number := s.next_number + 1 }, some b)) :=
  ⟨fun _ _ _ => ⟨_, rfl⟩, fun _ _ _ => ⟨_, rfl⟩, fun _ _ => ⟨_, rfl⟩,
    fun _ _ _ => ⟨_, rfl⟩,
    fun sha3 coinbase s txs ts =>
      ⟨Executor.build_block sha3 coinbase s.last_hash s.next_number ts txs,
        _, rfl⟩⟩

end MBC
